import Mathlib

/-
Verification of the ugv_cam core: frame extraction from an MJPEG byte
stream, the latest-frame buffer of the video worker, the response parsing
of Agent.step and Agent.get_latest_state, the command schema validation,
the tank-drive kinematics, and the camera intrinsics/extrinsics helpers.

Shallow embedding conventions:
- byte strings are lists of naturals (each entry a byte value),
- JSON numbers are rationals, JSON dictionaries are association lists,
- Python float arithmetic is idealised as real arithmetic,
- a Python function that can raise is embedded returning an Option.
-/

set_option maxHeartbeats 1000000

namespace UgvCam

/-! ## extract_jpeg (src/ugv_cam/agent.py) -/

/-- Index of the first occurrence of the two-byte pattern `a b` in the
buffer, mirroring Python `bytes.find` of a two-byte needle; `none` when
the pattern does not occur. -/
def findPair : List Nat → Nat → Nat → Option Nat
  | [], _, _ => none
  | [_], _, _ => none
  | x :: y :: rest, a, b =>
      if x = a ∧ y = b then some 0
      else (findPair (y :: rest) a b).map (fun i => i + 1)

/-- Embedding of `extract_jpeg(buffer)`: locate the first JPEG start
marker `FF D8` and the first end marker `FF D9`; when both are present
return `buffer[start:end+2]` together with the remainder
`buffer[end+2:]`, otherwise return no frame and the whole buffer. -/
def extract_jpeg (buffer : List Nat) : Option (List Nat) × List Nat :=
  match findPair buffer 255 216, findPair buffer 255 217 with
  | some s, some e => (some ((buffer.drop s).take (e + 2 - s)), buffer.drop (e + 2))
  | _, _ => (none, buffer)

/-! ## VideoStream latest-frame buffer (src/ugv_cam/agent.py) -/

/-- Mutable state of a `VideoStream`: the bounded frame queue (front of
the list is the front of the queue) and the sticky last decoded frame. -/
structure VSState (α : Type) where
  frame_queue : List α
  last_frame : Option α

/-- The queue bound used by `VideoStream.__init__` (max_queue_size). -/
def maxQueueSize : Nat := 5

/-- Embedding of `queue.Queue.put_nowait`: append when below the bound,
otherwise fail (the `queue.Full` case). -/
def put_nowait {α : Type} (q : List α) (f : α) : Option (List α) :=
  if q.length < maxQueueSize then some (q ++ [f]) else none

/-- Body of `_stream_video` once a frame has been decoded successfully:
drain the queue, then `put_nowait` the new frame and record it as the
last frame; on `queue.Full` the last frame is left unchanged. -/
def on_decoded_frame {α : Type} (s : VSState α) (f : α) : VSState α :=
  match put_nowait ([] : List α) f with
  | some q => { frame_queue := q, last_frame := some f }
  | none => { frame_queue := [], last_frame := s.last_frame }

/-- Embedding of `VideoStream.get_latest_frame`: a non-blocking
`get_nowait` returning the queued frame when one is pending, falling
back to the last known frame on `queue.Empty`. The returned pair is
(result, state after the call). -/
def get_latest_frame {α : Type} (s : VSState α) : Option α × VSState α :=
  match s.frame_queue with
  | f :: rest => (some f, { s with frame_queue := rest })
  | [] => (s.last_frame, s)

/-- Events of the frame-acquisition/reader step relation: the worker
decodes a frame successfully, the worker fails to decode (or has no
complete frame yet), or the consumer calls `get_latest_frame`. -/
inductive VSEvent (α : Type) where
  | decode_success (f : α)
  | decode_failure
  | read

/-- One step of the frame-acquisition/reader system. -/
def vs_step {α : Type} (s : VSState α) : VSEvent α → VSState α
  | .decode_success f => on_decoded_frame s f
  | .decode_failure => s
  | .read => (get_latest_frame s).2

/-- State of a freshly constructed `VideoStream`: empty queue, no last
frame. -/
def vs_init (α : Type) : VSState α := { frame_queue := [], last_frame := none }

/-- State reached from construction after a list of events. -/
def vs_run {α : Type} (tr : List (VSEvent α)) : VSState α :=
  tr.foldl vs_step (vs_init α)

/-- Whether a trace contains at least one successful decode. -/
def hasDecode {α : Type} (tr : List (VSEvent α)) : Bool :=
  tr.any fun e => match e with
    | .decode_success _ => true
    | _ => false

/-! ## JSON model and response parsing (src/ugv_cam/agent.py, schema.py) -/

/-- A JSON dictionary with numeric values, as an association list. -/
abbrev JDict := List (String × ℚ)

/-- A command response: either a JSON dictionary or some non-dictionary
JSON value (the `isinstance(response, dict)` guard). -/
inductive JResponse where
  | dict (d : JDict)
  | nondict
deriving DecidableEq

/-- The tag of a response: the value at key "T" of a dictionary
response, if any. -/
def responseTag : JResponse → Option ℚ
  | .dict d => d.lookup "T"
  | .nondict => none

/-- Embedding of the pydantic model `ImuData` (schema.py). -/
structure ImuData where
  r : ℚ
  p : ℚ
  ax : Option ℚ := none
  ay : Option ℚ := none
  az : Option ℚ := none
  gx : Option ℚ := none
  gy : Option ℚ := none
  gz : Option ℚ := none
  mx : Option ℚ := none
  my : Option ℚ := none
  mz : Option ℚ := none
  temp : Option ℚ := none
deriving DecidableEq

/-- Embedding of the pydantic model `ChassisFeedback` (schema.py). -/
structure ChassisFeedback where
  T : ℚ
  L : ℚ
  R : ℚ
  r : ℚ
  p : ℚ
  v : ℚ
deriving DecidableEq

/-- `ChassisFeedback(**response)`: pydantic validation requires every
declared field to be present (extra keys are ignored); a missing field
raises, embedded as `none`. -/
def mkChassisFeedback (d : JDict) : Option ChassisFeedback := do
  let tv ← d.lookup "T"
  let lv ← d.lookup "L"
  let rv ← d.lookup "R"
  let rr ← d.lookup "r"
  let pp ← d.lookup "p"
  let vv ← d.lookup "v"
  some { T := tv, L := lv, R := rv, r := rr, p := pp, v := vv }

/-- `ImuData(r=..., p=...)` as called from the chassis-feedback branch:
only roll and pitch are set, every optional field defaults to `None`. -/
def imu_from_rp (rv pv : ℚ) : ImuData := { r := rv, p := pv }

/-- `ImuData(**fields)`: requires roll and pitch, fills every optional
field from the dictionary when present. -/
def mkImuData (d : JDict) : Option ImuData := do
  let rv ← d.lookup "r"
  let pv ← d.lookup "p"
  some { r := rv, p := pv,
         ax := d.lookup "ax", ay := d.lookup "ay", az := d.lookup "az",
         gx := d.lookup "gx", gy := d.lookup "gy", gz := d.lookup "gz",
         mx := d.lookup "mx", my := d.lookup "my", mz := d.lookup "mz",
         temp := d.lookup "temp" }

/-- Response processing of `Agent.step`: tag 1001 builds a
`ChassisFeedback` and then a roll/pitch `ImuData` from the same payload,
tag 1002 builds a full `ImuData` from every key except "T", and any
other response yields neither. A raise inside a branch is `none`. -/
def parse_step_response (resp : JResponse) : Option (Option ImuData × Option ChassisFeedback) :=
  match resp with
  | .nondict => some (none, none)
  | .dict d =>
    match d.lookup "T" with
    | none => some (none, none)
    | some t =>
      if t = 1001 then do
        let fb ← mkChassisFeedback d
        let rv ← d.lookup "r"
        let pv ← d.lookup "p"
        some (some (imu_from_rp rv pv), some fb)
      else if t = 1002 then do
        let imu ← mkImuData (d.filter (fun kv => kv.1 ≠ "T"))
        some (some imu, none)
      else some (none, none)

/-- Response processing of `Agent.get_latest_state`: only tag 1001 is
recognised; there is no branch for tag 1002. -/
def parse_get_latest_state_response (resp : JResponse) :
    Option (Option ImuData × Option ChassisFeedback) :=
  match resp with
  | .nondict => some (none, none)
  | .dict d =>
    match d.lookup "T" with
    | none => some (none, none)
    | some t =>
      if t = 1001 then do
        let fb ← mkChassisFeedback d
        let rv ← d.lookup "r"
        let pv ← d.lookup "p"
        some (some (imu_from_rp rv pv), some fb)
      else some (none, none)

/-- The fields of a `State` (schema.py) produced by one `Agent.step`
call, with the image kept as encoded bytes; the wall-clock timestamp is
not modelled. -/
structure AgentState where
  sensors : Option ImuData
  feedback : Option ChassisFeedback
  image : Option (List Nat)
deriving DecidableEq

/-- `Agent.step` after the command has been sent: parse the response,
read the latest frame (already fetched, passed here as `frame`), encode
it with `enc` (cv2.imencode) when present, and assemble the `State`. -/
def step_model {α : Type} (resp : JResponse) (frame : Option α) (enc : α → List Nat) :
    Option AgentState := do
  let sf ← parse_step_response resp
  some { sensors := sf.1, feedback := sf.2, image := frame.map enc }

/-! ## Action schema (src/ugv_cam/schema.py) -/

/-- The members of `ActionEnum` that take part in validation or are used
by the agent; the remaining enum members carry no required-field lists
and never influence validation or serialization. -/
inductive ActionEnum where
  | CMD_SPEED_CTRL
  | CMD_PWM_INPUT
  | CMD_ROS_CTRL
  | CMD_SET_MOTOR_PID
  | CMD_GET_IMU_DATA
  | CMD_BASE_FEEDBACK
deriving DecidableEq

/-- The integer value of each modelled `ActionEnum` member. -/
def ActionEnum.value : ActionEnum → ℤ
  | .CMD_SPEED_CTRL => 1
  | .CMD_PWM_INPUT => 11
  | .CMD_ROS_CTRL => 13
  | .CMD_SET_MOTOR_PID => 2
  | .CMD_GET_IMU_DATA => 126
  | .CMD_BASE_FEEDBACK => 130

/-- The `required_fields` table of the validator. -/
def required_fields : ActionEnum → Option (List String)
  | .CMD_SPEED_CTRL => some ["L", "R"]
  | .CMD_PWM_INPUT => some ["L", "R"]
  | .CMD_ROS_CTRL => some ["X", "Z"]
  | _ => none

/-- Embedding of `Action.validate_data_for_action_type`: collect, in
order, the required field names absent from the data; raise a validation
error carrying that list when it is nonempty. -/
def validate_data_for_action_type (action_type : ActionEnum) (data : JDict) :
    Except (List String) JDict :=
  match required_fields action_type with
  | some req =>
      let missing := req.filter (fun f => (data.lookup f).isNone)
      if missing.isEmpty then .ok data else .error missing
  | none => .ok data

/-- An `Action` whose data already passed validation. -/
structure Action where
  action_type : ActionEnum
  data : JDict

/-- Python `dict.update` on association lists with unique keys: keys of
`d1` keep their position (their value replaced when also in `d2`), keys
only in `d2` are appended in order. -/
def dict_update (d1 d2 : JDict) : JDict :=
  (d1.map fun kv =>
    match d2.lookup kv.1 with
    | some v => (kv.1, v)
    | none => kv)
  ++ d2.filter (fun kv => (d1.lookup kv.1).isNone)

/-- Embedding of `Action.to_json_dict`: start from the dictionary with
the single key "T" holding the enum value, then `update` with the data. -/
def Action.to_json_dict (a : Action) : JDict :=
  dict_update [("T", (a.action_type.value : ℚ))] a.data

/-! ## Kinematics (src/ugv_cam/kinematics.py) -/

/-- Embedding of `tank_model(v_l, v_r, current_pose, dt)`: differential
drive integration over one time step. Poses are (x, y, z, yaw); float
arithmetic is idealised as real arithmetic. -/
noncomputable def tank_model (v_l v_r : ℝ) (current_pose : ℝ × ℝ × ℝ × ℝ) (dt : ℝ) :
    ℝ × ℝ × ℝ × ℝ :=
  let WHEEL_BASE : ℝ := 0.22
  let x := current_pose.1
  let y := current_pose.2.1
  let z := current_pose.2.2.1
  let yaw := current_pose.2.2.2
  let v_center := (v_r + v_l) / 2
  let omega := (v_r - v_l) / WHEEL_BASE
  let yaw_new := yaw + omega * dt
  let d : ℝ × ℝ :=
    if |omega| < 1e-6 then
      (0, v_center * dt)
    else
      (v_center / omega * (1 - Real.cos (omega * dt)),
       v_center / omega * Real.sin (omega * dt))
  (x + d.1 * Real.cos yaw - d.2 * Real.sin yaw,
   y,
   z + d.1 * Real.sin yaw + d.2 * Real.cos yaw,
   yaw_new)

/-- The loop of `predict_trajectory`: fold `tank_model` over the speed
pairs, emitting the position (yaw dropped) after each step. -/
noncomputable def predict_steps (dt : ℝ) : List (ℝ × ℝ) → ℝ × ℝ × ℝ × ℝ → List (ℝ × ℝ × ℝ)
  | [], _ => []
  | (vl, vr) :: rest, pose =>
      let pose2 := tank_model vl vr pose dt
      (pose2.1, pose2.2.1, pose2.2.2.1) :: predict_steps dt rest pose2

/-- Embedding of `predict_trajectory(speeds, dt, n_steps)`: start at the
origin with zero heading and integrate the first
`range(min(len(speeds), n_steps))` speed pairs; `n_steps` is a Python
int, so it is modelled as an integer and an empty range results when
`min(len(speeds), n_steps)` is negative. -/
noncomputable def predict_trajectory (speeds : List (ℝ × ℝ)) (dt : ℝ) (n_steps : ℤ) :
    List (ℝ × ℝ × ℝ) :=
  (0, 0, 0) :: predict_steps dt (speeds.take (min (speeds.length : ℤ) n_steps).toNat) (0, 0, 0, 0)

/-! ## Camera model (src/ugv_cam/utils.py) -/

/-- A 3 by 3 real matrix with explicit entries, modelling the numpy
arrays built in utils.py. -/
structure Mat3 where
  m00 : ℝ
  m01 : ℝ
  m02 : ℝ
  m10 : ℝ
  m11 : ℝ
  m12 : ℝ
  m20 : ℝ
  m21 : ℝ
  m22 : ℝ

/-- Matrix product of two 3 by 3 matrices (numpy `@`). -/
def Mat3.mul (A B : Mat3) : Mat3 where
  m00 := A.m00 * B.m00 + A.m01 * B.m10 + A.m02 * B.m20
  m01 := A.m00 * B.m01 + A.m01 * B.m11 + A.m02 * B.m21
  m02 := A.m00 * B.m02 + A.m01 * B.m12 + A.m02 * B.m22
  m10 := A.m10 * B.m00 + A.m11 * B.m10 + A.m12 * B.m20
  m11 := A.m10 * B.m01 + A.m11 * B.m11 + A.m12 * B.m21
  m12 := A.m10 * B.m02 + A.m11 * B.m12 + A.m12 * B.m22
  m20 := A.m20 * B.m00 + A.m21 * B.m10 + A.m22 * B.m20
  m21 := A.m20 * B.m01 + A.m21 * B.m11 + A.m22 * B.m21
  m22 := A.m20 * B.m02 + A.m21 * B.m12 + A.m22 * B.m22

/-- Embedding of `math.radians`. -/
noncomputable def radians (d : ℝ) : ℝ := d * Real.pi / 180

/-- Embedding of `math.degrees`. -/
noncomputable def degrees (r : ℝ) : ℝ := r * 180 / Real.pi

/-- The 4 by 4 extrinsic matrix built by `estimate_extrinsics`: it is
`np.eye(4)` with the top-left 3 by 3 block set to the rotation and the
first three entries of the last column set to the translation; the
bottom row is the constant (0, 0, 0, 1) and is never read back, so only
the rotation block and the translation are carried. -/
structure Extrinsic where
  rot : Mat3
  tx : ℝ
  ty : ℝ
  tz : ℝ

/-- Embedding of `estimate_extrinsics(x, y, z, R, P, Y)`: angles in
degrees, rotation composed as Rz(yaw) Ry(pitch) Rx(roll). -/
noncomputable def estimate_extrinsics (x y z R P Y : ℝ) : Extrinsic :=
  let roll := radians R
  let pitch := radians P
  let yaw := radians Y
  let Rz : Mat3 :=
    ⟨Real.cos yaw, -Real.sin yaw, 0,
     Real.sin yaw, Real.cos yaw, 0,
     0, 0, 1⟩
  let Ry : Mat3 :=
    ⟨Real.cos pitch, 0, Real.sin pitch,
     0, 1, 0,
     -Real.sin pitch, 0, Real.cos pitch⟩
  let Rx : Mat3 :=
    ⟨1, 0, 0,
     0, Real.cos roll, -Real.sin roll,
     0, Real.sin roll, Real.cos roll⟩
  { rot := (Rz.mul Ry).mul Rx, tx := x, ty := y, tz := z }

/-- Embedding of `math.atan2(y, x)`: the angle in (-pi, pi] of the point
(x, y), with `atan2 0 0 = 0`. -/
noncomputable def atan2 (y x : ℝ) : ℝ :=
  if 0 < x then Real.arctan (y / x)
  else if x < 0 then
    if 0 ≤ y then Real.arctan (y / x) + Real.pi
    else Real.arctan (y / x) - Real.pi
  else
    if 0 < y then Real.pi / 2
    else if y < 0 then -(Real.pi / 2)
    else 0

/-- Embedding of `decompose_extrinsics(extrinsic_matrix)`: read the
translation from the last column and the Euler angles (in degrees) from
the rotation block with the standard atan2 decomposition; the singular
branch (projected magnitude of the first column below 1e-6) fixes yaw to
zero. Returns (x, y, z, roll, pitch, yaw). -/
noncomputable def decompose_extrinsics (M : Extrinsic) : ℝ × ℝ × ℝ × ℝ × ℝ × ℝ :=
  let R := M.rot
  let sy := Real.sqrt (R.m00 * R.m00 + R.m10 * R.m10)
  if sy < 1e-6 then
    (M.tx, M.ty, M.tz,
     degrees (atan2 (-R.m12) R.m11),
     degrees (atan2 (-R.m20) sy),
     0)
  else
    (M.tx, M.ty, M.tz,
     degrees (atan2 R.m21 R.m22),
     degrees (atan2 (-R.m20) sy),
     degrees (atan2 R.m10 R.m00))

/-- Embedding of `estimate_intrinsics(fov_x, height, width)`: pinhole
intrinsics with square pixels and the principal point at the image
centre. The argument order (fov, height, width) follows the source. -/
noncomputable def estimate_intrinsics (fov_x height width : ℝ) : Mat3 :=
  let focal_length_x := (width / 2) / Real.tan (radians fov_x / 2)
  ⟨focal_length_x, 0, width / 2,
   0, focal_length_x, height / 2,
   0, 0, 1⟩

/-! ## Shared lemmas -/

theorem findPair_spec {l : List Nat} {a b : Nat} : ∀ {i : Nat},
    findPair l a b = some i → i + 1 < l.length ∧ l[i]? = some a ∧ l[i + 1]? = some b := by
  induction l with
  | nil => intro i h; simp [findPair] at h
  | cons x rest ih =>
    intro i h
    match rest, h with
    | [], h => simp [findPair] at h
    | y :: t, h =>
      rw [findPair] at h
      by_cases hab : x = a ∧ y = b
      · rw [if_pos hab] at h
        cases h
        refine ⟨by simp, ?_, ?_⟩
        · simp [hab.1]
        · simp [hab.2]
      · rw [if_neg hab] at h
        obtain ⟨j, hj, rfl⟩ := Option.map_eq_some'.mp h
        obtain ⟨hlen, hga, hgb⟩ := ih hj
        refine ⟨by simpa using Nat.succ_lt_succ hlen, ?_, ?_⟩
        · simpa using hga
        · simpa using hgb

theorem drop_take_two {l : List Nat} {a b : Nat} : ∀ {i : Nat},
    l[i]? = some a → l[i + 1]? = some b → (l.drop i).take 2 = [a, b] := by
  induction l with
  | nil => intro i ha _; simp at ha
  | cons x rest ih =>
    intro i ha hb
    cases i with
    | zero =>
      simp at ha
      subst ha
      match rest, hb with
      | y :: t, hb =>
        simp at hb
        subst hb
        rfl
    | succ n =>
      simp at ha hb
      simpa using ih ha hb

/-! ## Claims -/

/-- C2 counterexample: on the buffer FF D9 FF D8 both markers are
present, so `extract_jpeg` returns a non-None frame, but since the first
end marker precedes the first start marker the frame is the empty byte
string and does not begin with FF D8. -/
theorem extract_jpeg_cex :
    (extract_jpeg [255, 217, 255, 216]).1 = some []
      ∧ ([] : List Nat).take 2 ≠ [255, 216] := by
  constructor
  · rfl
  · decide

/-- C2 (amended): whenever `extract_jpeg` returns a non-None frame and
the first start marker occurs strictly before the first end marker, the
frame begins with FF D8, ends with FF D9, and is exactly the slice of
the buffer from the first start marker through the first end marker
inclusive. -/
theorem extract_jpeg_markers (buffer : List Nat) (s e : Nat)
    (hs : findPair buffer 255 216 = some s)
    (he : findPair buffer 255 217 = some e)
    (hlt : s < e) :
    ∃ frame, (extract_jpeg buffer).1 = some frame
      ∧ frame.take 2 = [255, 216]
      ∧ frame.drop (frame.length - 2) = [255, 217]
      ∧ frame = (buffer.drop s).take (e + 2 - s) := by
  obtain ⟨hse, hsa, hsb⟩ := findPair_spec hs
  obtain ⟨hee, hea, heb⟩ := findPair_spec he
  refine ⟨(buffer.drop s).take (e + 2 - s), ?_, ?_, ?_, rfl⟩
  · simp [extract_jpeg, hs, he]
  · rw [List.take_take]
    have h2 : min 2 (e + 2 - s) = 2 := by omega
    rw [h2]
    exact drop_take_two hsa hsb
  · have hlen : ((buffer.drop s).take (e + 2 - s)).length = e + 2 - s := by
      simp [List.length_take, List.length_drop]
      omega
    rw [hlen]
    have h2 : e + 2 - s - 2 = e - s := by omega
    rw [h2, List.drop_take, List.drop_drop]
    have h3 : s + (e - s) = e := by omega
    have h4 : e + 2 - s - (e - s) = 2 := by omega
    rw [h3, h4]
    exact drop_take_two hea heb

/-- C2 witness for the amended theorem, at the buffer
00 FF D8 01 FF D9 02. -/
theorem extract_jpeg_markers_witness :
    ∃ frame, (extract_jpeg [0, 255, 216, 1, 255, 217, 2]).1 = some frame
      ∧ frame.take 2 = [255, 216]
      ∧ frame.drop (frame.length - 2) = [255, 217]
      ∧ frame = (([0, 255, 216, 1, 255, 217, 2] : List Nat).drop 1).take (4 + 2 - 1) :=
  extract_jpeg_markers [0, 255, 216, 1, 255, 217, 2] 1 4 (by decide) (by decide) (by decide)

/-- C1 counterexample: on the full-IMU payload with tag 1002,
`Agent.step` derives a sensor reading while `Agent.get_latest_state`
derives none, so the two do not process every payload identically. -/
theorem step_vs_get_latest_state_cex :
    parse_step_response (.dict [("T", 1002), ("r", 1), ("p", 2)])
      ≠ parse_get_latest_state_response (.dict [("T", 1002), ("r", 1), ("p", 2)]) := by
  decide

/-- C1 (amended): for every command response payload whose tag is not
1002, `Agent.get_latest_state` derives the same optional sensors and
optional feedback from the payload as `Agent.step` does; on tag-1002
payloads `get_latest_state` lacks the full-IMU branch of `step`. -/
theorem step_matches_get_latest_state (resp : JResponse)
    (h : responseTag resp ≠ some 1002) :
    parse_step_response resp = parse_get_latest_state_response resp := by
  cases resp with
  | nondict => rfl
  | dict d =>
    rw [parse_step_response, parse_get_latest_state_response]
    cases hT : d.lookup "T" with
    | none => rfl
    | some t =>
      have ht : t ≠ 1002 := by
        intro hcontra
        apply h
        rw [responseTag, hT, hcontra]
      by_cases h1 : t = 1001
      · simp [h1]
      · simp [h1, ht]

/-- C1 witness: the amended equivalence applied to a concrete tag-1001
chassis feedback payload. -/
theorem step_matches_get_latest_state_witness :
    parse_step_response
        (.dict [("T", 1001), ("L", 1), ("R", 2), ("r", 3), ("p", 4), ("v", 5)])
      = parse_get_latest_state_response
        (.dict [("T", 1001), ("L", 1), ("R", 2), ("r", 3), ("p", 4), ("v", 5)]) :=
  step_matches_get_latest_state
    (.dict [("T", 1001), ("L", 1), ("R", 2), ("r", 3), ("p", 4), ("v", 5)]) (by decide)

/-- C4: on every response whose tag is neither 1001 nor 1002, including
responses with no tag at all and non-dictionary responses, `Agent.step`
returns normally with a State carrying no sensors and no feedback, while
the image field still holds the encoded latest frame whenever one is
available. -/
theorem step_unrecognized_tag {α : Type} (resp : JResponse) (frame : Option α)
    (enc : α → List Nat)
    (h1 : responseTag resp ≠ some 1001) (h2 : responseTag resp ≠ some 1002) :
    step_model resp frame enc
      = some { sensors := none, feedback := none, image := frame.map enc } := by
  rw [step_model]
  have hparse : parse_step_response resp = some (none, none) := by
    cases resp with
    | nondict => rfl
    | dict d =>
      rw [parse_step_response]
      cases hT : d.lookup "T" with
      | none => rfl
      | some t =>
        have ht1 : t ≠ 1001 := by
          intro hc; apply h1; rw [responseTag, hT, hc]
        have ht2 : t ≠ 1002 := by
          intro hc; apply h2; rw [responseTag, hT, hc]
        simp [ht1, ht2]
  rw [hparse]
  rfl

/-- C4 witness: a concrete unrecognized tag 999 with a frame present. -/
theorem step_unrecognized_tag_witness :
    step_model (.dict [("T", 999)]) (some 3) (fun n : Nat => [n])
      = some { sensors := none, feedback := none, image := some [3] } :=
  step_unrecognized_tag (.dict [("T", 999)]) (some 3) (fun n : Nat => [n])
    (by decide) (by decide)

/-- C5: validating a speed-control command with empty fields fails
naming exactly the missing fields L and R, validating it with the fields
L = 0.3 and R = -0.3 succeeds, and its serialization is the dictionary
T = 1, L = 0.3, R = -0.3 in that order. -/
theorem speed_ctrl_validation :
    validate_data_for_action_type .CMD_SPEED_CTRL [] = .error ["L", "R"]
      ∧ validate_data_for_action_type .CMD_SPEED_CTRL [("L", 3/10), ("R", -3/10)]
          = .ok [("L", 3/10), ("R", -3/10)]
      ∧ Action.to_json_dict ⟨.CMD_SPEED_CTRL, [("L", 3/10), ("R", -3/10)]⟩
          = [("T", 1), ("L", 3/10), ("R", -3/10)] := by
  refine ⟨rfl, rfl, ?_⟩
  show dict_update _ _ = _
  have hTL : ("T" == "L") = false := by decide
  have hTR : ("T" == "R") = false := by decide
  have hLT : ("L" == "T") = false := by decide
  have hRT : ("R" == "T") = false := by decide
  simp [Action.to_json_dict, dict_update, ActionEnum.value, List.lookup, List.filter,
    hTL, hTR, hLT, hRT]

theorem foldl_no_decode {α : Type} :
    ∀ tr : List (VSEvent α), hasDecode tr = false →
      List.foldl vs_step (vs_init α) tr = vs_init α := by
  intro tr
  induction tr with
  | nil => intro _; rfl
  | cons e rest ih =>
    intro h
    rw [hasDecode, List.any_cons, Bool.or_eq_false_iff] at h
    have hstep : vs_step (vs_init α) e = vs_init α := by
      cases e with
      | decode_success f => simp at h
      | decode_failure => rfl
      | read => rfl
    rw [List.foldl_cons, hstep]
    exact ih h.2

theorem vs_step_last_some {α : Type} (s : VSState α) (e : VSEvent α)
    (h : s.last_frame.isSome = true) : ((vs_step s e).last_frame).isSome = true := by
  cases e with
  | decode_success f =>
    simp [vs_step, on_decoded_frame, put_nowait, maxQueueSize]
  | decode_failure => exact h
  | read =>
    cases hq : s.frame_queue with
    | nil => simpa [vs_step, get_latest_frame, hq] using h
    | cons f rest => simpa [vs_step, get_latest_frame, hq] using h

theorem foldl_decode_some {α : Type} :
    ∀ (tr : List (VSEvent α)) (s : VSState α),
      hasDecode tr = true ∨ s.last_frame.isSome = true →
      ((List.foldl vs_step s tr).last_frame).isSome = true := by
  intro tr
  induction tr with
  | nil =>
    intro s h
    rcases h with h | h
    · simp [hasDecode] at h
    · exact h
  | cons e rest ih =>
    intro s h
    rw [List.foldl_cons]
    cases e with
    | decode_success f =>
      apply ih
      right
      simp [vs_step, on_decoded_frame, put_nowait, maxQueueSize]
    | decode_failure =>
      apply ih
      rcases h with h | h
      · left; simpa [hasDecode] using h
      · right; exact h
    | read =>
      apply ih
      rcases h with h | h
      · left; simpa [hasDecode] using h
      · right; exact vs_step_last_some s .read h

/-- C3: `get_latest_frame` is a total function on the reachable states
of the acquisition/reader step system (it never blocks and never
raises); after any event trace from construction it returns nothing if
and only if the trace contains no successful decode, and it returns a
frame whenever some decode has succeeded. -/
theorem get_latest_frame_spec {α : Type} (tr : List (VSEvent α)) :
    ((get_latest_frame (vs_run tr)).1 = none ↔ hasDecode tr = false)
      ∧ (hasDecode tr = true → ((get_latest_frame (vs_run tr)).1).isSome = true) := by
  have hmain : hasDecode tr = true → ((get_latest_frame (vs_run tr)).1).isSome = true := by
    intro h
    have hlast := foldl_decode_some tr (vs_init α) (Or.inl h)
    rw [get_latest_frame]
    cases hq : (vs_run tr).frame_queue with
    | nil => exact hlast
    | cons f rest => simp
  refine ⟨⟨?_, ?_⟩, hmain⟩
  · intro hnone
    cases hdec : hasDecode tr with
    | false => rfl
    | true =>
      have := hmain hdec
      rw [hnone] at this
      simp at this
  · intro hfalse
    show (get_latest_frame (List.foldl vs_step (vs_init α) tr)).1 = none
    rw [foldl_no_decode tr hfalse]
    rfl

/-- C3 witness: after one successful decode followed by two reads, the
read still returns a frame. -/
theorem get_latest_frame_spec_witness :
    ((get_latest_frame (vs_run [VSEvent.decode_success (7 : Nat),
        VSEvent.read, VSEvent.read])).1).isSome = true :=
  (get_latest_frame_spec [VSEvent.decode_success (7 : Nat),
      VSEvent.read, VSEvent.read]).2 (by decide)

theorem predict_steps_length (dt : ℝ) :
    ∀ (l : List (ℝ × ℝ)) (pose : ℝ × ℝ × ℝ × ℝ),
      (predict_steps dt l pose).length = l.length := by
  intro l
  induction l with
  | nil => intro _; rfl
  | cons sp rest ih =>
    intro pose
    obtain ⟨vl, vr⟩ := sp
    simp [predict_steps, ih]

/-- C6 counterexample: `n_steps` is a Python int and may be negative;
with an empty speed list and step bound -1 the returned trajectory has
one element, not min(0, -1) + 1 = 0. -/
theorem predict_trajectory_cex :
    ((predict_trajectory [] 1 (-1)).length : ℤ)
      ≠ min (([] : List (ℝ × ℝ)).length : ℤ) (-1) + 1 := by
  have h : (predict_trajectory [] 1 (-1)).length = 1 := by
    simp [predict_trajectory, predict_steps]
  rw [h]
  norm_num

/-- C6 (amended): for every speed list, every dt and every nonnegative
step bound n, `predict_trajectory` returns min(len(speeds), n) + 1
positions whose first element is the origin; for negative n the loop
runs zero times and the trajectory still has one element. -/
theorem predict_trajectory_length (speeds : List (ℝ × ℝ)) (dt : ℝ) (n_steps : ℤ)
    (hn : 0 ≤ n_steps) :
    ((predict_trajectory speeds dt n_steps).length : ℤ)
        = min (speeds.length : ℤ) n_steps + 1
      ∧ (predict_trajectory speeds dt n_steps).head? = some (0, 0, 0) := by
  refine ⟨?_, rfl⟩
  have h1 : (predict_trajectory speeds dt n_steps).length
      = min (min (speeds.length : ℤ) n_steps).toNat speeds.length + 1 := by
    simp [predict_trajectory, predict_steps_length, List.length_take]
  rw [h1]
  push_cast
  omega

/-- C6 witness: two speed pairs, bound five. -/
theorem predict_trajectory_length_witness :
    ((predict_trajectory [(1, 1), (2, 2)] 1 5).length : ℤ)
        = min (([(1, 1), (2, 2)] : List (ℝ × ℝ)).length : ℤ) 5 + 1
      ∧ (predict_trajectory [(1, 1), (2, 2)] 1 5).head? = some (0, 0, 0) :=
  predict_trajectory_length [(1, 1), (2, 2)] 1 5 (by norm_num)

/-- C7: with equal wheel velocities v and any dt > 0 the tank model
keeps yaw and y unchanged and advances the world position by exactly
v*dt along the current heading: x decreases by v*dt*sin(yaw) and z
increases by v*dt*cos(yaw). -/
theorem tank_model_straight (v dt x y z yaw : ℝ) (hdt : 0 < dt) :
    tank_model v v (x, y, z, yaw) dt
      = (x - v * dt * Real.sin yaw, y, z + v * dt * Real.cos yaw, yaw) := by
  simp only [tank_model, sub_self, zero_div, abs_zero]
  rw [if_pos (by norm_num : (0 : ℝ) < 1e-6)]
  simp only [Prod.mk.injEq]
  refine ⟨by ring, trivial, by ring, by ring⟩

/-- C7 witness at v = 1, dt = 1, pose the origin. -/
theorem tank_model_straight_witness :
    tank_model 1 1 ((0 : ℝ), (0 : ℝ), (0 : ℝ), (0 : ℝ)) 1
      = (0 - 1 * 1 * Real.sin 0, 0, 0 + 1 * 1 * Real.cos 0, 0) :=
  tank_model_straight 1 1 0 0 0 0 (by norm_num)

theorem tank_model_small (v_l v_r dt x y z yaw : ℝ)
    (h : |(v_r - v_l) / 0.22| < 1e-6) :
    tank_model v_l v_r (x, y, z, yaw) dt
      = (x + 0 * Real.cos yaw - (v_r + v_l) / 2 * dt * Real.sin yaw,
         y,
         z + 0 * Real.sin yaw + (v_r + v_l) / 2 * dt * Real.cos yaw,
         yaw + (v_r - v_l) / 0.22 * dt) := by
  simp only [tank_model]
  rw [if_pos h]

theorem tank_model_turn (v_l v_r dt x y z yaw : ℝ)
    (h : ¬ |(v_r - v_l) / 0.22| < 1e-6) :
    tank_model v_l v_r (x, y, z, yaw) dt
      = (x + (v_r + v_l) / 2 / ((v_r - v_l) / 0.22)
             * (1 - Real.cos ((v_r - v_l) / 0.22 * dt)) * Real.cos yaw
           - (v_r + v_l) / 2 / ((v_r - v_l) / 0.22)
             * Real.sin ((v_r - v_l) / 0.22 * dt) * Real.sin yaw,
         y,
         z + (v_r + v_l) / 2 / ((v_r - v_l) / 0.22)
             * (1 - Real.cos ((v_r - v_l) / 0.22 * dt)) * Real.sin yaw
           + (v_r + v_l) / 2 / ((v_r - v_l) / 0.22)
             * Real.sin ((v_r - v_l) / 0.22 * dt) * Real.cos yaw,
         yaw + (v_r - v_l) / 0.22 * dt) := by
  simp only [tank_model]
  rw [if_neg h]

theorem abs_sin_sub_sin (a b : ℝ) : |Real.sin a - Real.sin b| ≤ |a - b| := by
  rw [Real.sin_sub_sin, abs_mul, abs_mul]
  have h1 : |Real.sin ((a - b) / 2)| ≤ |(a - b) / 2| := Real.abs_sin_le_abs
  have h3 : |(a - b) / 2| = |a - b| / 2 := by rw [abs_div]; norm_num
  rw [h3] at h1
  have h2 : |Real.cos ((a + b) / 2)| ≤ 1 := Real.abs_cos_le_one _
  have h4 : |(2 : ℝ)| = 2 := by norm_num
  rw [h4]
  have h5 := mul_le_mul h1 h2 (abs_nonneg _) (by positivity)
  nlinarith [abs_nonneg (Real.sin ((a - b) / 2)), abs_nonneg (Real.cos ((a + b) / 2))]

theorem abs_cos_sub_cos (a b : ℝ) : |Real.cos a - Real.cos b| ≤ |a - b| := by
  rw [Real.cos_sub_cos, abs_mul, abs_mul]
  have h1 : |Real.sin ((a - b) / 2)| ≤ |(a - b) / 2| := Real.abs_sin_le_abs
  have h3 : |(a - b) / 2| = |a - b| / 2 := by rw [abs_div]; norm_num
  rw [h3] at h1
  have h2 : |Real.sin ((a + b) / 2)| ≤ 1 := Real.abs_sin_le_one _
  have h4 : |(-2 : ℝ)| = 2 := by norm_num
  rw [h4]
  have h5 := mul_le_mul h2 h1 (abs_nonneg _) (by positivity)
  nlinarith [abs_nonneg (Real.sin ((a - b) / 2)), abs_nonneg (Real.sin ((a + b) / 2))]

theorem lipschitz_term_bound (vc ω dt D : ℝ) (hD : |D| ≤ |ω * dt|) :
    |vc * dt * D| ≤ 3 * |vc| * |ω| * dt ^ 2 := by
  rw [abs_mul, abs_mul]
  have h1 : |vc| * |dt| * |D| ≤ |vc| * |dt| * (|ω| * |dt|) := by
    apply mul_le_mul_of_nonneg_left _ (by positivity)
    rwa [abs_mul] at hD
  have h3 : |dt| * |dt| = dt ^ 2 := by rw [abs_mul_abs_self, sq]
  have h2 : |vc| * |dt| * (|ω| * |dt|) = |vc| * |ω| * dt ^ 2 := by
    linear_combination (|vc| * |ω|) * h3
  have h4 : (0 : ℝ) ≤ |vc| * |ω| * dt ^ 2 := by positivity
  nlinarith [h1.trans_eq h2]

theorem bound_helper (R θ s c u v : ℝ) (hs : |s| ≤ |θ|) (hs2 : s ^ 2 ≤ θ ^ 2)
    (hc1 : 1 - c ≤ θ ^ 2 / 2) (hc0 : 0 ≤ 1 - c) (hθ : |θ| ≤ 1)
    (hu : |u| ≤ 1) (hv : |v| ≤ 1) :
    |2 * R * s ^ 2 * u + 2 * R * s * (1 - c) * v| ≤ 3 * |R| * θ ^ 2 := by
  have hRa : (0 : ℝ) ≤ |R| := abs_nonneg R
  have ht2 : (0 : ℝ) ≤ θ ^ 2 := sq_nonneg θ
  have h1 : |2 * R * s ^ 2 * u| ≤ 2 * |R| * θ ^ 2 := by
    rw [abs_mul, abs_mul, abs_mul]
    have e2 : |(2 : ℝ)| = 2 := by norm_num
    have es : |s ^ 2| = s ^ 2 := abs_of_nonneg (sq_nonneg s)
    rw [e2, es]
    nlinarith [mul_nonneg hRa (sub_nonneg.mpr hs2),
      mul_nonneg (mul_nonneg hRa (sq_nonneg s)) (sub_nonneg.mpr hu), abs_nonneg u]
  have h2 : |2 * R * s * (1 - c) * v| ≤ |R| * θ ^ 2 := by
    rw [abs_mul, abs_mul, abs_mul, abs_mul]
    have e2 : |(2 : ℝ)| = 2 := by norm_num
    have ec : |1 - c| = 1 - c := abs_of_nonneg hc0
    rw [e2, ec]
    have key : |s| * (1 - c) ≤ θ ^ 2 / 2 :=
      (mul_le_mul hs hc1 hc0 (abs_nonneg θ)).trans
        (mul_le_of_le_one_left (by positivity) hθ)
    nlinarith [key, hv, abs_nonneg v, mul_nonneg (abs_nonneg s) hc0,
      mul_nonneg hRa (mul_nonneg (abs_nonneg s) hc0), mul_nonneg hRa ht2]
  calc |2 * R * s ^ 2 * u + 2 * R * s * (1 - c) * v|
      ≤ |2 * R * s ^ 2 * u| + |2 * R * s * (1 - c) * v| := abs_add _ _
    _ ≤ 2 * |R| * θ ^ 2 + |R| * θ ^ 2 := add_le_add h1 h2
    _ = 3 * |R| * θ ^ 2 := by ring

/-- C8: applying the tank model and then the tank model with both
velocities negated for the same dt returns exactly the original yaw and
y, and returns x and z up to an explicit deviation bounded by
3 * |centerVelocity| * |angularVelocity| * dt^2, which vanishes as
|angularVelocity * dt| tends to zero; this is the quantitative reading
of returning to the original pose within tolerance for small
|angularVelocity * dt|. -/
theorem tank_model_reverse (v_l v_r dt x y z yaw : ℝ)
    (hsmall : |(v_r - v_l) / 0.22 * dt| ≤ 1) :
    ∃ ex ez,
      tank_model (-v_l) (-v_r) (tank_model v_l v_r (x, y, z, yaw) dt) dt
          = (x + ex, y, z + ez, yaw)
        ∧ |ex| ≤ 3 * |(v_r + v_l) / 2| * |(v_r - v_l) / 0.22| * dt ^ 2
        ∧ |ez| ≤ 3 * |(v_r + v_l) / 2| * |(v_r - v_l) / 0.22| * dt ^ 2 := by
  have hvc' : (-v_r + -v_l) / 2 = -((v_r + v_l) / 2) := by ring
  have hω' : (-v_r - -v_l) / 0.22 = -((v_r - v_l) / 0.22) := by ring
  by_cases hb : |(v_r - v_l) / 0.22| < 1e-6
  · have hb2 : |(-v_r - -v_l) / 0.22| < 1e-6 := by rw [hω', abs_neg]; exact hb
    refine ⟨(v_r + v_l) / 2 * dt
        * (Real.sin (yaw + (v_r - v_l) / 0.22 * dt) - Real.sin yaw),
      (v_r + v_l) / 2 * dt
        * (Real.cos yaw - Real.cos (yaw + (v_r - v_l) / 0.22 * dt)), ?_, ?_, ?_⟩
    · rw [tank_model_small v_l v_r dt x y z yaw hb,
        tank_model_small (-v_l) (-v_r) dt _ _ _ _ hb2]
      rw [hvc', hω']
      simp only [Prod.mk.injEq]
      refine ⟨by ring, trivial, by ring, by ring⟩
    · apply lipschitz_term_bound
      have h := abs_sin_sub_sin (yaw + (v_r - v_l) / 0.22 * dt) yaw
      simpa using h
    · apply lipschitz_term_bound
      have h := abs_cos_sub_cos yaw (yaw + (v_r - v_l) / 0.22 * dt)
      have h2 : yaw - (yaw + (v_r - v_l) / 0.22 * dt) = -((v_r - v_l) / 0.22 * dt) := by
        ring
      rw [h2, abs_neg] at h
      exact h
  · have hb2 : ¬ |(-v_r - -v_l) / 0.22| < 1e-6 := by rw [hω', abs_neg]; exact hb
    have hω0 : (v_r - v_l) / 0.22 ≠ 0 := by
      intro h0
      apply hb
      rw [h0, abs_zero]
      norm_num
    refine ⟨2 * ((v_r + v_l) / 2 / ((v_r - v_l) / 0.22))
          * Real.sin ((v_r - v_l) / 0.22 * dt) ^ 2 * Real.cos yaw
        + 2 * ((v_r + v_l) / 2 / ((v_r - v_l) / 0.22))
          * Real.sin ((v_r - v_l) / 0.22 * dt)
          * (1 - Real.cos ((v_r - v_l) / 0.22 * dt)) * -Real.sin yaw,
      2 * ((v_r + v_l) / 2 / ((v_r - v_l) / 0.22))
          * Real.sin ((v_r - v_l) / 0.22 * dt) ^ 2 * Real.sin yaw
        + 2 * ((v_r + v_l) / 2 / ((v_r - v_l) / 0.22))
          * Real.sin ((v_r - v_l) / 0.22 * dt)
          * (1 - Real.cos ((v_r - v_l) / 0.22 * dt)) * Real.cos yaw, ?_, ?_, ?_⟩
    · rw [tank_model_turn v_l v_r dt x y z yaw hb,
        tank_model_turn (-v_l) (-v_r) dt _ _ _ _ hb2]
      rw [hvc', hω']
      simp only [neg_div_neg_eq, neg_mul, Real.cos_neg, Real.sin_neg, Prod.mk.injEq]
      refine ⟨?_, trivial, ?_, by ring⟩
      · rw [Real.cos_add, Real.sin_add]
        linear_combination (-((v_r + v_l) / 2 / ((v_r - v_l) / 0.22) * Real.cos yaw))
          * Real.sin_sq_add_cos_sq ((v_r - v_l) / 0.22 * dt)
      · rw [Real.cos_add, Real.sin_add]
        linear_combination (-((v_r + v_l) / 2 / ((v_r - v_l) / 0.22) * Real.sin yaw))
          * Real.sin_sq_add_cos_sq ((v_r - v_l) / 0.22 * dt)
    · have hbb := bound_helper ((v_r + v_l) / 2 / ((v_r - v_l) / 0.22))
        ((v_r - v_l) / 0.22 * dt)
        (Real.sin ((v_r - v_l) / 0.22 * dt)) (Real.cos ((v_r - v_l) / 0.22 * dt))
        (Real.cos yaw) (-Real.sin yaw)
        Real.abs_sin_le_abs Real.sin_sq_le_sq
        (by linarith [Real.one_sub_sq_div_two_le_cos (x := (v_r - v_l) / 0.22 * dt)])
        (by linarith [Real.cos_le_one ((v_r - v_l) / 0.22 * dt)])
        hsmall (Real.abs_cos_le_one yaw)
        (by rw [abs_neg]; exact Real.abs_sin_le_one yaw)
      have hconv : 3 * |(v_r + v_l) / 2 / ((v_r - v_l) / 0.22)|
            * ((v_r - v_l) / 0.22 * dt) ^ 2
          = 3 * |(v_r + v_l) / 2| * |(v_r - v_l) / 0.22| * dt ^ 2 := by
        have h1 : ((v_r - v_l) / 0.22 * dt) ^ 2
            = |(v_r - v_l) / 0.22| ^ 2 * dt ^ 2 := by rw [mul_pow, sq_abs]
        rw [abs_div, h1]
        have habs0 : |(v_r - v_l) / 0.22| ≠ 0 := abs_ne_zero.mpr hω0
        set B := |(v_r - v_l) / 0.22| with hBdef
        set A := |(v_r + v_l) / 2| with hAdef
        field_simp
        ring
      exact hbb.trans_eq hconv
    · have hbb := bound_helper ((v_r + v_l) / 2 / ((v_r - v_l) / 0.22))
        ((v_r - v_l) / 0.22 * dt)
        (Real.sin ((v_r - v_l) / 0.22 * dt)) (Real.cos ((v_r - v_l) / 0.22 * dt))
        (Real.sin yaw) (Real.cos yaw)
        Real.abs_sin_le_abs Real.sin_sq_le_sq
        (by linarith [Real.one_sub_sq_div_two_le_cos (x := (v_r - v_l) / 0.22 * dt)])
        (by linarith [Real.cos_le_one ((v_r - v_l) / 0.22 * dt)])
        hsmall (Real.abs_sin_le_one yaw) (Real.abs_cos_le_one yaw)
      have hconv : 3 * |(v_r + v_l) / 2 / ((v_r - v_l) / 0.22)|
            * ((v_r - v_l) / 0.22 * dt) ^ 2
          = 3 * |(v_r + v_l) / 2| * |(v_r - v_l) / 0.22| * dt ^ 2 := by
        have h1 : ((v_r - v_l) / 0.22 * dt) ^ 2
            = |(v_r - v_l) / 0.22| ^ 2 * dt ^ 2 := by rw [mul_pow, sq_abs]
        rw [abs_div, h1]
        have habs0 : |(v_r - v_l) / 0.22| ≠ 0 := abs_ne_zero.mpr hω0
        set B := |(v_r - v_l) / 0.22| with hBdef
        set A := |(v_r + v_l) / 2| with hAdef
        field_simp
        ring
      exact hbb.trans_eq hconv

/-- C8 witness at equal unit velocities, where the deviation bound is
zero and the double step returns exactly. -/
theorem tank_model_reverse_witness :
    ∃ ex ez,
      tank_model (-1) (-1) (tank_model 1 1 ((0 : ℝ), (0 : ℝ), (0 : ℝ), (0 : ℝ)) 1) 1
          = (0 + ex, 0, 0 + ez, 0)
        ∧ |ex| ≤ 3 * |((1 : ℝ) + 1) / 2| * |((1 : ℝ) - 1) / 0.22| * 1 ^ 2
        ∧ |ez| ≤ 3 * |((1 : ℝ) + 1) / 2| * |((1 : ℝ) - 1) / 0.22| * 1 ^ 2 :=
  tank_model_reverse 1 1 1 0 0 0 0 (by norm_num)

/-- C10: `estimate_intrinsics` returns the pinhole matrix with
fx = fy = (width/2)/tan(fovX/2 in radians), principal point at
(width/2, height/2), zeros elsewhere and 1 in the corner; in particular
for fovX = 90 degrees and width = height = 2 it yields fx = 1 and
principal point (1, 1). -/
theorem estimate_intrinsics_spec :
    (∀ fov_x w h : ℝ, 0 < fov_x → fov_x < 180 → 0 < w → 0 < h →
      estimate_intrinsics fov_x h w
        = ⟨w / 2 / Real.tan (radians fov_x / 2), 0, w / 2,
           0, w / 2 / Real.tan (radians fov_x / 2), h / 2,
           0, 0, 1⟩)
    ∧ (estimate_intrinsics 90 2 2).m00 = 1
    ∧ (estimate_intrinsics 90 2 2).m02 = 1
    ∧ (estimate_intrinsics 90 2 2).m12 = 1 := by
  have h1 : radians 90 / 2 = Real.pi / 4 := by
    rw [radians]; ring
  have hconc : ((2 : ℝ) / 2) / Real.tan (radians 90 / 2) = 1 := by
    rw [h1, Real.tan_pi_div_four]
    norm_num
  refine ⟨fun fov_x w h _ _ _ _ => rfl, ?_, ?_, ?_⟩
  · show ((2 : ℝ) / 2) / Real.tan (radians 90 / 2) = 1
    exact hconc
  · show (2 : ℝ) / 2 = 1
    norm_num
  · show (2 : ℝ) / 2 = 1
    norm_num

/-- C10 witness: the general pinhole shape at the source defaults
fovX = 66.5 degrees, width = 640, height = 480. -/
theorem estimate_intrinsics_spec_witness :
    estimate_intrinsics 66.5 480 640
      = ⟨640 / 2 / Real.tan (radians 66.5 / 2), 0, 640 / 2,
         0, 640 / 2 / Real.tan (radians 66.5 / 2), 480 / 2,
         0, 0, 1⟩ :=
  estimate_intrinsics_spec.1 66.5 640 480 (by norm_num) (by norm_num)
    (by norm_num) (by norm_num)

theorem atan2_mul_sin_cos {k θ : ℝ} (hk : 0 < k) (h1 : -Real.pi < θ) (h2 : θ ≤ Real.pi) :
    atan2 (k * Real.sin θ) (k * Real.cos θ) = θ := by
  have hk0 : k ≠ 0 := hk.ne'
  rcases lt_trichotomy θ (Real.pi / 2) with hlt2 | heq2 | hgt2
  · rcases lt_trichotomy θ (-(Real.pi / 2)) with hlt3 | heq3 | hgt3
    · have hc : Real.cos θ < 0 := by
        rw [← Real.cos_neg]
        apply Real.cos_neg_of_pi_div_two_lt_of_lt
        · linarith
        · linarith [Real.pi_pos]
      have hs : Real.sin θ < 0 :=
        Real.sin_neg_of_neg_of_neg_pi_lt (by linarith [Real.pi_pos]) h1
      have hx : k * Real.cos θ < 0 := mul_neg_of_pos_of_neg hk hc
      have hy : k * Real.sin θ < 0 := mul_neg_of_pos_of_neg hk hs
      rw [atan2, if_neg (by linarith), if_pos hx, if_neg (by linarith)]
      rw [mul_div_mul_left _ _ hk0, ← Real.tan_eq_sin_div_cos]
      rw [show Real.tan θ = Real.tan (θ + Real.pi) from (Real.tan_add_pi θ).symm]
      rw [Real.arctan_tan (by linarith) (by linarith)]
      ring
    · subst heq3
      have hcos : Real.cos (-(Real.pi / 2)) = 0 := by
        rw [Real.cos_neg, Real.cos_pi_div_two]
      have hsin : Real.sin (-(Real.pi / 2)) = -1 := by
        rw [Real.sin_neg, Real.sin_pi_div_two]
      have hy : k * (-1 : ℝ) < 0 := by linarith
      rw [hcos, hsin, mul_zero, atan2, if_neg (lt_irrefl 0), if_neg (lt_irrefl 0),
        if_neg (by linarith), if_pos hy]
    · have hc : 0 < Real.cos θ := Real.cos_pos_of_mem_Ioo ⟨hgt3, hlt2⟩
      have hx : 0 < k * Real.cos θ := mul_pos hk hc
      rw [atan2, if_pos hx]
      rw [mul_div_mul_left _ _ hk0, ← Real.tan_eq_sin_div_cos]
      exact Real.arctan_tan hgt3 hlt2
  · subst heq2
    rw [Real.cos_pi_div_two, Real.sin_pi_div_two, mul_zero, mul_one, atan2,
      if_neg (lt_irrefl 0), if_neg (lt_irrefl 0), if_pos hk]
  · have hc : Real.cos θ < 0 :=
      Real.cos_neg_of_pi_div_two_lt_of_lt hgt2 (by linarith [Real.pi_pos])
    have hs : 0 ≤ Real.sin θ :=
      Real.sin_nonneg_of_nonneg_of_le_pi (by linarith [Real.pi_pos]) h2
    have hx : k * Real.cos θ < 0 := mul_neg_of_pos_of_neg hk hc
    have hy : 0 ≤ k * Real.sin θ := mul_nonneg hk.le hs
    rw [atan2, if_neg (by linarith), if_pos hx, if_pos hy]
    rw [mul_div_mul_left _ _ hk0, ← Real.tan_eq_sin_div_cos]
    rw [show Real.tan θ = Real.tan (θ - Real.pi) from (Real.tan_sub_pi θ).symm]
    rw [Real.arctan_tan (by linarith [Real.pi_pos]) (by linarith [Real.pi_pos])]
    ring

theorem degrees_radians (d : ℝ) : degrees (radians d) = d := by
  rw [degrees, radians]
  field_simp

theorem radians_mem (d : ℝ) (hd1 : -180 < d) (hd2 : d ≤ 180) :
    -Real.pi < radians d ∧ radians d ≤ Real.pi := by
  rw [radians]
  constructor
  · nlinarith [Real.pi_pos]
  · nlinarith [Real.pi_pos]

theorem estimate_extrinsics_eq (x y z R P Y : ℝ) :
    estimate_extrinsics x y z R P Y =
      { rot := ⟨Real.cos (radians Y) * Real.cos (radians P),
                Real.cos (radians Y) * Real.sin (radians P) * Real.sin (radians R)
                  - Real.sin (radians Y) * Real.cos (radians R),
                Real.cos (radians Y) * Real.sin (radians P) * Real.cos (radians R)
                  + Real.sin (radians Y) * Real.sin (radians R),
                Real.sin (radians Y) * Real.cos (radians P),
                Real.sin (radians Y) * Real.sin (radians P) * Real.sin (radians R)
                  + Real.cos (radians Y) * Real.cos (radians R),
                Real.sin (radians Y) * Real.sin (radians P) * Real.cos (radians R)
                  - Real.cos (radians Y) * Real.sin (radians R),
                -Real.sin (radians P),
                Real.cos (radians P) * Real.sin (radians R),
                Real.cos (radians P) * Real.cos (radians R)⟩,
        tx := x, ty := y, tz := z } := by
  simp only [estimate_extrinsics, Mat3.mul, Extrinsic.mk.injEq, Mat3.mk.injEq]
  refine ⟨⟨?_, ?_, ?_, ?_, ?_, ?_, ?_, ?_, ?_⟩, trivial, trivial, trivial⟩ <;> ring

/-- C9 (amended): away from the singular branch of the decomposition
(cos of the pitch at least 1e-6, in addition to pitch in (-90, 90) and
roll and yaw in (-180, 180]), decomposing the constructed extrinsic
matrix returns exactly the translation and the three Euler angles. -/
theorem decompose_estimate_roundtrip (x y z R P Y : ℝ)
    (hR1 : -180 < R) (hR2 : R ≤ 180)
    (hP1 : -90 < P) (hP2 : P < 90)
    (hY1 : -180 < Y) (hY2 : Y ≤ 180)
    (hcos : 1e-6 ≤ Real.cos (radians P)) :
    decompose_extrinsics (estimate_extrinsics x y z R P Y) = (x, y, z, R, P, Y) := by
  have hcp : (0 : ℝ) < Real.cos (radians P) := lt_of_lt_of_le (by norm_num) hcos
  rw [estimate_extrinsics_eq]
  simp only [decompose_extrinsics]
  have hsum : Real.cos (radians Y) * Real.cos (radians P)
        * (Real.cos (radians Y) * Real.cos (radians P))
      + Real.sin (radians Y) * Real.cos (radians P)
        * (Real.sin (radians Y) * Real.cos (radians P))
      = Real.cos (radians P) * Real.cos (radians P) := by
    linear_combination (Real.cos (radians P) * Real.cos (radians P))
      * Real.sin_sq_add_cos_sq (radians Y)
  rw [hsum, Real.sqrt_mul_self hcp.le]
  rw [if_neg (not_lt.mpr hcos)]
  have hRmem := radians_mem R hR1 hR2
  have hYmem := radians_mem Y hY1 hY2
  have hPmem := radians_mem P (by linarith) (by linarith)
  have hroll : atan2 (Real.cos (radians P) * Real.sin (radians R))
      (Real.cos (radians P) * Real.cos (radians R)) = radians R :=
    atan2_mul_sin_cos hcp hRmem.1 hRmem.2
  have hpitch : atan2 (- -Real.sin (radians P)) (Real.cos (radians P)) = radians P := by
    rw [neg_neg]
    rw [show Real.sin (radians P) = 1 * Real.sin (radians P) by ring,
      show Real.cos (radians P) = 1 * Real.cos (radians P) by ring]
    exact atan2_mul_sin_cos one_pos hPmem.1 hPmem.2
  have hyaw : atan2 (Real.sin (radians Y) * Real.cos (radians P))
      (Real.cos (radians Y) * Real.cos (radians P)) = radians Y := by
    rw [show Real.sin (radians Y) * Real.cos (radians P)
        = Real.cos (radians P) * Real.sin (radians Y) by ring,
      show Real.cos (radians Y) * Real.cos (radians P)
        = Real.cos (radians P) * Real.cos (radians Y) by ring]
    exact atan2_mul_sin_cos hcp hYmem.1 hYmem.2
  rw [hroll, hpitch, hyaw, degrees_radians, degrees_radians, degrees_radians]

/-- C9 witness: translation (1, 2, 3) with all angles zero. -/
theorem decompose_estimate_roundtrip_witness :
    decompose_extrinsics (estimate_extrinsics 1 2 3 0 0 0) = (1, 2, 3, 0, 0, 0) :=
  decompose_estimate_roundtrip 1 2 3 0 0 0 (by norm_num) (by norm_num) (by norm_num)
    (by norm_num) (by norm_num) (by norm_num)
    (by rw [show radians 0 = 0 by rw [radians]; ring, Real.cos_zero]; norm_num)

/-- C9 counterexample: at pitch 90 - 1e-5 degrees, strictly inside
(-90, 90), the projected magnitude sy falls below 1e-6, the singular
branch fires and fixes yaw to 0, so the decomposition does not return
the constructed yaw of 90 degrees. -/
theorem decompose_estimate_cex :
    decompose_extrinsics (estimate_extrinsics 0 0 0 0 (90 - 1 / 100000) 90)
      ≠ (0, 0, 0, 0, 90 - 1 / 100000, 90) := by
  have harg : radians (90 - 1 / 100000) = Real.pi / 2 - Real.pi / 18000000 := by
    rw [radians]; ring
  have hrad90 : radians 90 = Real.pi / 2 := by rw [radians]; ring
  have hcosP0 : Real.cos (radians (90 - 1 / 100000))
      = Real.sin (Real.pi / 18000000) := by
    rw [harg, Real.cos_pi_div_two_sub]
  have ht_pos : (0 : ℝ) < Real.pi / 18000000 := by positivity
  have hsin_nonneg : (0 : ℝ) ≤ Real.sin (Real.pi / 18000000) :=
    Real.sin_nonneg_of_nonneg_of_le_pi ht_pos.le (by nlinarith [Real.pi_pos])
  have hsin_lt : Real.sin (Real.pi / 18000000) < 1e-6 := by
    have ha := Real.sin_lt ht_pos
    have hb : Real.pi / 18000000 < 1e-6 := by linarith [Real.pi_lt_d2]
    linarith
  intro hEq
  have h6 := congrArg (fun t : ℝ × ℝ × ℝ × ℝ × ℝ × ℝ => t.2.2.2.2.2) hEq
  simp only at h6
  rw [estimate_extrinsics_eq] at h6
  simp only [decompose_extrinsics] at h6
  rw [hrad90, Real.cos_pi_div_two, Real.sin_pi_div_two] at h6
  simp only [zero_mul, mul_zero, one_mul, zero_add] at h6
  rw [hcosP0, Real.sqrt_mul_self hsin_nonneg, if_pos hsin_lt] at h6
  norm_num at h6

end UgvCam
